import Mathlib

/-!
# smartmeter: the durable write path of `persist.go`

A shallow embedding of `PostgresConfig.String` and `PostgresWriter.Flush`.

* The relational store, the metrics timer, the logger and the retry channel are
  collaborators of `Flush`.  The store is a state (`Store`): the committed rows of
  `meter_data` plus, while a transaction is open, the rows inserted in it; those become
  visible only when `Commit` succeeds and are discarded by `Rollback`.  Every store call
  may fail: which one does is decided by a `StoreBehaviour`, over which the theorems
  quantify.
* Effects are recorded explicitly in a `FlushOutcome`: the store calls made (in order),
  the duration observations, the sends dispatched to the retry channel, the log lines.
* `sort.Slice` belongs to the Go standard library.  It is a parameter of `Flush`; the
  theorems that depend on what it does assume its documented contract
  (`SortSliceContract`), and the concrete inputs use a stable insertion sort.
-/

namespace Smartmeter

/-! ## Data model -/

/-- Modelled from the spec: the `Measurement` struct is declared outside `persist.go`.
Its fields are the thirteen columns bound by `insert_meter_data`.  `Created` is the
timestamp, held as an instant on the time line (an integer count of clock ticks); the
decimal readings are payload that `Flush` never inspects, held as integers. -/
structure Measurement where
  Created : Int
  MeterID : Int
  TotalKwhNeg : Int
  TotalKwhPos : Int
  TotalKwhT1Pos : Int
  TotalKwhT2Pos : Int
  TotalP : Int
  P1 : Int
  P2 : Int
  P3 : Int
  V1 : Int
  V2 : Int
  V3 : Int
  deriving DecidableEq, Repr

/-- The comparison `t.Before(u)` of two instants. -/
def Before (t u : Int) : Bool := decide (t < u)

/-- The `less` closure handed to `sort.Slice` at line 85, on the elements it compares. -/
def lessCreated (a b : Measurement) : Bool := Before a.Created b.Created

/-- The struct `PostgresConfig`. -/
structure PostgresConfig where
  User : String
  Password : String
  Host : String
  Port : String
  DbName : String
  deriving DecidableEq, Repr

/-- An error value produced by the store driver; `Flush` only passes it on. -/
abbrev StoreError := String

/-- The values of Go type `error` that `Flush` can return. -/
inductive Error where
  /-- The value built by `errors.New(msg)`. -/
  | new (msg : String)
  /-- An error value handed back by a store call, returned unchanged. -/
  | fromStore (e : StoreError)
  deriving DecidableEq, Repr

/-- One call on the store handle, the transaction or the prepared statement. -/
inductive StoreCall where
  | Beginx
  | PrepareNamed
  | Exec (m : Measurement)
  | Commit
  | Rollback
  | Close
  deriving DecidableEq, Repr

/-- One line written with the `log` package (the elapsed time of line 118 is left out). -/
inductive LogLine where
  | failed (e : StoreError)
  | flushed (items : Nat)
  deriving DecidableEq, Repr

/-- Which store calls fail, and with which error.  `rows` are the committed rows of
`meter_data` when the call is made, `pending` the rows already inserted in the open
transaction.  `none` means the call succeeds. -/
structure StoreBehaviour where
  beginx : (rows : List Measurement) → Option StoreError
  prepareNamed : (rows : List Measurement) → Option StoreError
  exec : (rows pending : List Measurement) → Measurement → Option StoreError
  commit : (rows pending : List Measurement) → Option StoreError

/-- Everything one invocation of `Flush` returns and does. -/
structure FlushOutcome where
  /-- The returned error; `none` is Go's `nil`. -/
  err : Option Error
  /-- The committed rows of `meter_data` after the call. -/
  rows : List Measurement
  /-- The transaction left open when the call returns, with its rows; `none` if none. -/
  tx : Option (List Measurement)
  /-- The store calls made by this invocation, oldest first. -/
  calls : List StoreCall
  /-- How many durations were observed into `flushTime`. -/
  observations : Nat
  /-- The values of the sends `p.retryC <- measurements` dispatched, oldest first. -/
  retryC : List (List Measurement)
  /-- The log lines written. -/
  log : List LogLine
  deriving DecidableEq, Repr

/-! ## `fmt.Sprintf` on string operands -/

/-- The text `fmt` appends for operands left over after the format is used up. -/
def sprintfExtra : List String → List Char
  | [] => []
  | a :: rest =>
    "%!(EXTRA ".data ++ "string=".data ++ a.data
      ++ (rest.map (fun s => ", string=".data ++ s.data)).flatten ++ [')']

/-- The formatting loop of `fmt.Sprintf` over string operands.  Modelled: plain text,
`%%`, the verbs `%v` and `%s`, a missing operand, a `%` that ends the format and left-over
operands.  Any other verb is rendered the way `fmt` reports a verb that does not apply
to a string; flags and widths are not modelled. -/
def sprintfLoop : List Char → List String → List Char
  | [], args => sprintfExtra args
  | ['%'], _ => "%!(NOVERB)".data
  | '%' :: '%' :: rest, args => '%' :: sprintfLoop rest args
  | '%' :: c :: rest, [] => "%!".data ++ [c] ++ "(MISSING)".data ++ sprintfLoop rest []
  | '%' :: c :: rest, a :: args =>
    if c = 'v' ∨ c = 's' then a.data ++ sprintfLoop rest args
    else "%!".data ++ [c] ++ "(string=".data ++ a.data ++ [')'] ++ sprintfLoop rest args
  | c :: rest, args => c :: sprintfLoop rest args

/-- The call `fmt.Sprintf(format, args...)` with string operands. -/
def Sprintf (format : String) (args : List String) : String :=
  String.mk (sprintfLoop format.data args)

/-- The method `PostgresConfig.String` (lines 60-64). -/
def PostgresConfig.String (pc : PostgresConfig) : String :=
  Sprintf "user=%v password=%v host=%v port=%v dbname=%v sslmode=disable"
    [pc.User, pc.Password, pc.Host, pc.Port, pc.DbName]

/-! ## `sort.Slice` -/

/-- The documented contract of `sort.Slice(x, less)` for the `less` of line 85: the slice
is rearranged in place (a permutation of what it held) so that no element is `less` than
one that stands before it.  Nothing is promised about equal elements. -/
def SortSliceContract
    (sortSlice : (Measurement → Measurement → Bool) → List Measurement → List Measurement) :
    Prop :=
  ∀ l : List Measurement,
    (sortSlice lessCreated l).Perm l ∧
    (sortSlice lessCreated l).Pairwise (fun a b => lessCreated b a = false)

/-- A stable insertion sort by `less`.  It meets `SortSliceContract`, and it is the
result `sort.Slice` produces on the short slices used as concrete inputs below. -/
def insertionSortLess (less : Measurement → Measurement → Bool) (l : List Measurement) :
    List Measurement :=
  l.insertionSort (fun a b => less b a = false)

/-! ## The store -/

/-- The state of the store as one invocation of `Flush` sees it. -/
structure Store where
  /-- The committed rows of `meter_data`, the rows visible in the store. -/
  rows : List Measurement
  /-- The rows inserted in the open transaction, not visible yet; `none` when no
  transaction is open. -/
  tx : Option (List Measurement)
  /-- The calls made so far, oldest first. -/
  calls : List StoreCall
  deriving DecidableEq, Repr

/-- The error of `database/sql` for a call on a transaction that is over. -/
def errTxDone : StoreError := "sql: transaction has already been committed or rolled back"

namespace Store

/-- A store with committed `rows`, no open transaction and no call made yet. -/
def idle (rows : List Measurement) : Store := { rows := rows, tx := none, calls := [] }

/-- Appends a call to the trace. -/
def record (st : Store) (c : StoreCall) : Store := { st with calls := st.calls ++ [c] }

/-- The call `p.db.Beginx()`: on success a transaction with no rows is open. -/
def Beginx (st : Store) (s : StoreBehaviour) : Option StoreError × Store :=
  match s.beginx st.rows with
  | some e => (some e, st.record StoreCall.Beginx)
  | none => (none, { st.record StoreCall.Beginx with tx := some [] })

/-- The call `tx.PrepareNamed(insert_meter_data)`. -/
def PrepareNamed (st : Store) (s : StoreBehaviour) : Option StoreError × Store :=
  (s.prepareNamed st.rows, st.record StoreCall.PrepareNamed)

/-- The call `insert.Exec(m)`: on success the row is added to the open transaction, and
to nothing else. -/
def Exec (st : Store) (s : StoreBehaviour) (m : Measurement) : Option StoreError × Store :=
  match st.tx with
  | none => (some errTxDone, st.record (StoreCall.Exec m))
  | some pending =>
    match s.exec st.rows pending m with
    | some e => (some e, st.record (StoreCall.Exec m))
    | none => (none, { st.record (StoreCall.Exec m) with tx := some (pending ++ [m]) })

/-- The call `tx.Commit()`: on success, and only then, the rows of the transaction
become committed rows and the transaction is over. -/
def Commit (st : Store) (s : StoreBehaviour) : Option StoreError × Store :=
  match st.tx with
  | none => (some errTxDone, st.record StoreCall.Commit)
  | some pending =>
    match s.commit st.rows pending with
    | some e => (some e, st.record StoreCall.Commit)
    | none =>
      (none, { st.record StoreCall.Commit with rows := st.rows ++ pending, tx := none })

/-- The call `tx.Rollback()`, whose result `Flush` ignores: the rows of an open
transaction are discarded; after a commit nothing is left to discard. -/
def Rollback (st : Store) : Store := { st.record StoreCall.Rollback with tx := none }

/-- The call `insert.Close()`, whose result `Flush` ignores. -/
def Close (st : Store) : Store := st.record StoreCall.Close

end Store

/-! ## `PostgresWriter.Flush` -/

namespace PostgresWriter

/-- The loop of lines 102-107 over the records still to insert: it returns at the first
`insert.Exec` that fails. -/
def insertLoop (s : StoreBehaviour) : List Measurement → Store → Option StoreError × Store
  | [], st => (none, st)
  | m :: rest, st =>
    match st.Exec s m with
    | (some e, st) => (some e, st)
    | (none, st) => insertLoop s rest st

/-- The closure `exec` of lines 89-110.  The deferred `insert.Close()` and
`tx.Rollback()` run, in that order, on every return after their `defer` statement. -/
def exec (s : StoreBehaviour) (st : Store) (measurements : List Measurement) :
    Option StoreError × Store :=
  match st.Beginx s with
  | (some e, st) => (some e, st)
  | (none, st) =>
    match st.PrepareNamed s with
    | (some e, st) => (some e, st.Rollback)
    | (none, st) =>
      match insertLoop s measurements st with
      | (some e, st) => (some e, st.Close.Rollback)
      | (none, st) =>
        match st.Commit s with
        | (err, st) => (err, st.Close.Rollback)

/-- The method `PostgresWriter.Flush` (lines 74-120), run against a store with committed
`rows` and behaviour `s`.  `sort.Slice` sorts in place, so after line 87 the name
`measurements` denotes the sorted slice, also in the retry hand-off of line 114. -/
def Flush (sortSlice : (Measurement → Measurement → Bool) → List Measurement → List Measurement)
    (s : StoreBehaviour) (rows : List Measurement) (measurements : List Measurement) :
    FlushOutcome :=
  if measurements.length = 0 then
    { err := some (Error.new "No data in slice to flush")
      rows := rows, tx := none, calls := [], observations := 0, retryC := [], log := [] }
  else
    let measurements := sortSlice lessCreated measurements
    match exec s (Store.idle rows) measurements with
    | (some e, st) =>
      { err := some (Error.fromStore e)
        rows := st.rows, tx := st.tx, calls := st.calls, observations := 1
        retryC := [measurements], log := [LogLine.failed e] }
    | (none, st) =>
      { err := none
        rows := st.rows, tx := st.tx, calls := st.calls, observations := 1
        retryC := [], log := [LogLine.flushed measurements.length] }

end PostgresWriter

/-! ## Reading a trace of store calls -/

/-- The records for which `insert.Exec` was called, in call order. -/
def execRecords : List StoreCall → List Measurement
  | [] => []
  | StoreCall.Exec m :: rest => m :: execRecords rest
  | _ :: rest => execRecords rest

/-- Whether a call releases a resource: the deferred `Close` and `Rollback`. -/
def isRelease : StoreCall → Bool
  | StoreCall.Close => true
  | StoreCall.Rollback => true
  | _ => false

/-! ## The steps of one flush, as the specification lists them -/

/-- The per-row inserts over the sorted batch: each record with the outcome of its
insert when the records before it are the ones already inserted in the transaction. -/
def rowSteps (s : StoreBehaviour) (rows sorted : List Measurement) :
    List (StoreCall × Option StoreError) :=
  (sorted.inits.zip sorted).map (fun x => (StoreCall.Exec x.2, s.exec rows x.1 x.2))

/-- The steps of one flush in order: begin, prepare, the per-row inserts in sorted
order, commit; each with the outcome it has when all steps before it succeeded. -/
def plannedSteps (s : StoreBehaviour) (rows sorted : List Measurement) :
    List (StoreCall × Option StoreError) :=
  (StoreCall.Beginx, s.beginx rows) :: (StoreCall.PrepareNamed, s.prepareNamed rows) ::
    (rowSteps s rows sorted ++ [(StoreCall.Commit, s.commit rows sorted)])

/-- The error of the first failing step, `none` when no step fails. -/
def firstFailure : List (StoreCall × Option StoreError) → Option StoreError
  | [] => none
  | (_, some e) :: _ => some e
  | (_, none) :: rest => firstFailure rest

/-- The calls made when the steps are taken in order and the first failure stops the
work: every step up to and including the first failing one, and none after it. -/
def callsUntilFailure : List (StoreCall × Option StoreError) → List StoreCall
  | [] => []
  | (c, some _) :: _ => [c]
  | (c, none) :: rest => c :: callsUntilFailure rest

/-! ## Concrete stores and batches -/

/-- A reading of meter 7 taken at instant `created` with total power `p`. -/
def reading (created p : Int) : Measurement :=
  { Created := created, MeterID := 7, TotalKwhNeg := 0, TotalKwhPos := 1200,
    TotalKwhT1Pos := 800, TotalKwhT2Pos := 400, TotalP := p,
    P1 := p, P2 := 0, P3 := 0, V1 := 230, V2 := 231, V3 := 229 }

/-- A store on which every call succeeds. -/
def healthyStore : StoreBehaviour :=
  { beginx := fun _ => none, prepareNamed := fun _ => none,
    exec := fun _ _ _ => none, commit := fun _ _ => none }

/-- A store that cannot be reached: `Beginx` fails. -/
def unreachableStore : StoreBehaviour :=
  { healthyStore with beginx := fun _ => some "connection refused" }

/-- A store that rejects the insert statement: `PrepareNamed` fails. -/
def noPrepareStore : StoreBehaviour :=
  { healthyStore with prepareNamed := fun _ => some "relation does not exist" }

/-- A store that enforces the primary key: an insert fails when a row with the same
`Created` is committed or already inserted in the transaction. -/
def primaryKeyStore : StoreBehaviour :=
  { healthyStore with
    exec := fun rows pending m =>
      if m.Created ∈ (rows ++ pending).map Measurement.Created then some "duplicate key"
      else none }

/-- A store on which only `Commit` fails. -/
def commitFailStore : StoreBehaviour :=
  { healthyStore with commit := fun _ _ => some "commit failed" }


/-! ## Auxiliary facts -/

theorem lessCreated_eq_false_iff (a b : Measurement) :
    lessCreated b a = false ↔ a.Created ≤ b.Created := by
  simp [lessCreated, Before]

theorem insertionSortLess_contract : SortSliceContract insertionSortLess := by
  intro l
  refine ⟨List.perm_insertionSort _ l, ?_⟩
  have hs : (l.insertionSort (fun a b : Measurement => a.Created ≤ b.Created)).Sorted
      (fun a b => a.Created ≤ b.Created) := by
    haveI : IsTotal Measurement (fun a b => a.Created ≤ b.Created) :=
      ⟨fun a b => le_total a.Created b.Created⟩
    haveI : IsTrans Measurement (fun a b => a.Created ≤ b.Created) :=
      ⟨fun a b c hab hbc => le_trans hab hbc⟩
    exact List.sorted_insertionSort _ l
  have he : insertionSortLess lessCreated l
      = l.insertionSort (fun a b : Measurement => a.Created ≤ b.Created) := by
    unfold insertionSortLess
    congr
    funext a b
    exact propext (lessCreated_eq_false_iff a b)
  rw [he]
  exact hs.imp (fun {a b} h => (lessCreated_eq_false_iff a b).2 h)

theorem contract_ascending
    {sortSlice : (Measurement → Measurement → Bool) → List Measurement → List Measurement}
    (h : SortSliceContract sortSlice) (l : List Measurement) :
    (sortSlice lessCreated l).Pairwise (fun a b => a.Created ≤ b.Created) :=
  (h l).2.imp (fun {a b} hab => (lessCreated_eq_false_iff a b).1 hab)

theorem execRecords_map_Exec (l : List Measurement) :
    execRecords (l.map StoreCall.Exec) = l := by
  induction l with
  | nil => rfl
  | cons m l ih => simp [execRecords, ih]

theorem execRecords_append (xs ys : List StoreCall) :
    execRecords (xs ++ ys) = execRecords xs ++ execRecords ys := by
  induction xs with
  | nil => rfl
  | cons c xs ih => cases c <;> simp [execRecords, ih]

theorem firstFailure_eq_none_iff (l : List (StoreCall × Option StoreError)) :
    firstFailure l = none ↔ ∀ x ∈ l, x.2 = none := by
  induction l with
  | nil => simp [firstFailure]
  | cons x l ih =>
    rcases x with ⟨c, _ | e⟩
    · simp [firstFailure, ih]
    · simp [firstFailure]

theorem firstFailure_append_none (l r : List (StoreCall × Option StoreError))
    (h : firstFailure l = none) : firstFailure (l ++ r) = firstFailure r := by
  induction l with
  | nil => rfl
  | cons x l ih =>
    rcases x with ⟨c, _ | e⟩
    · simp [firstFailure] at h ⊢; exact ih h
    · simp [firstFailure] at h

theorem firstFailure_append_some (l r : List (StoreCall × Option StoreError)) (e : StoreError)
    (h : firstFailure l = some e) : firstFailure (l ++ r) = some e := by
  induction l with
  | nil => simp [firstFailure] at h
  | cons x l ih =>
    rcases x with ⟨c, _ | e'⟩
    · simp [firstFailure] at h ⊢; exact ih h
    · simpa [firstFailure] using h

theorem callsUntilFailure_append_none (l r : List (StoreCall × Option StoreError))
    (h : firstFailure l = none) :
    callsUntilFailure (l ++ r) = callsUntilFailure l ++ callsUntilFailure r := by
  induction l with
  | nil => rfl
  | cons x l ih =>
    rcases x with ⟨c, _ | e⟩
    · simp [firstFailure] at h; simp [callsUntilFailure, ih h]
    · simp [firstFailure] at h

theorem callsUntilFailure_append_some (l r : List (StoreCall × Option StoreError))
    (e : StoreError) (h : firstFailure l = some e) :
    callsUntilFailure (l ++ r) = callsUntilFailure l := by
  induction l with
  | nil => simp [firstFailure] at h
  | cons x l ih =>
    rcases x with ⟨c, _ | e'⟩
    · simp [firstFailure] at h; simp [callsUntilFailure, ih h]
    · simp [callsUntilFailure]

theorem callsUntilFailure_take (l : List (StoreCall × Option StoreError)) :
    ∃ k, callsUntilFailure l = (l.map Prod.fst).take k := by
  induction l with
  | nil => exact ⟨0, rfl⟩
  | cons x l ih =>
    rcases x with ⟨c, _ | e⟩
    · obtain ⟨k, hk⟩ := ih
      exact ⟨k + 1, by simp [callsUntilFailure, hk]⟩
    · exact ⟨1, by simp [callsUntilFailure]⟩

theorem callsUntilFailure_of_none (l : List (StoreCall × Option StoreError))
    (h : firstFailure l = none) : callsUntilFailure l = l.map Prod.fst := by
  induction l with
  | nil => rfl
  | cons x l ih =>
    rcases x with ⟨c, _ | e⟩
    · simp [firstFailure] at h; simp [callsUntilFailure, ih h]
    · simp [firstFailure] at h

theorem rowSteps_calls (s : StoreBehaviour) (rows ms : List Measurement) :
    (rowSteps s rows ms).map Prod.fst = ms.map StoreCall.Exec := by
  have h : (ms.inits.zip ms).map Prod.snd = ms :=
    List.map_snd_zip _ _ (by simp)
  calc (rowSteps s rows ms).map Prod.fst
      = ((ms.inits.zip ms).map Prod.snd).map StoreCall.Exec := by
        simp [rowSteps, List.map_map, Function.comp_def]
    _ = ms.map StoreCall.Exec := by rw [h]

/-- The insert loop, started in an open transaction holding `pending`, against the row
steps: what it returns, the calls it adds, and the rows of the transaction when no
insert fails.  The committed rows are not touched. -/
theorem insertLoop_steps (s : StoreBehaviour) :
    ∀ (ms : List Measurement) (st : Store) (pending : List Measurement),
      st.tx = some pending →
      (PostgresWriter.insertLoop s ms st).1
          = firstFailure ((ms.inits.zip ms).map
              (fun x => (StoreCall.Exec x.2, s.exec st.rows (pending ++ x.1) x.2))) ∧
      (PostgresWriter.insertLoop s ms st).2.calls
          = st.calls ++ callsUntilFailure ((ms.inits.zip ms).map
              (fun x => (StoreCall.Exec x.2, s.exec st.rows (pending ++ x.1) x.2))) ∧
      (PostgresWriter.insertLoop s ms st).2.rows = st.rows ∧
      ((PostgresWriter.insertLoop s ms st).1 = none →
        (PostgresWriter.insertLoop s ms st).2.tx = some (pending ++ ms)) := by
  intro ms
  induction ms with
  | nil =>
    intro st pending htx
    simp [PostgresWriter.insertLoop, firstFailure, callsUntilFailure, htx]
  | cons m ms ih =>
    intro st pending htx
    have hz : ((m :: ms).inits.zip (m :: ms)).map
          (fun x => (StoreCall.Exec x.2, s.exec st.rows (pending ++ x.1) x.2))
        = (StoreCall.Exec m, s.exec st.rows pending m) ::
          (ms.inits.zip ms).map
            (fun x => (StoreCall.Exec x.2, s.exec st.rows ((pending ++ [m]) ++ x.1) x.2)) := by
      simp [List.inits, List.zip_map_left, List.map_map, Function.comp_def]
    rw [hz]
    cases hm : s.exec st.rows pending m with
    | some e =>
      simp [PostgresWriter.insertLoop, Store.Exec, Store.record, htx, hm, firstFailure,
        callsUntilFailure]
    | none =>
      have hstep : st.Exec s m
          = (none, { st.record (StoreCall.Exec m) with tx := some (pending ++ [m]) }) := by
        simp [Store.Exec, htx, hm]
      obtain ⟨h1, h2, h3, h4⟩ :=
        ih { st.record (StoreCall.Exec m) with tx := some (pending ++ [m]) }
          (pending ++ [m]) rfl
      simp only [Store.record] at h1 h2 h3 h4
      simp only [PostgresWriter.insertLoop, hstep, Store.record, firstFailure,
        callsUntilFailure]
      refine ⟨h1, ?_, h3, ?_⟩
      · rw [h2]; simp
      · intro h
        rw [h4 h]; simp

theorem rowSteps_eq (s : StoreBehaviour) (rows ms : List Measurement) :
    (ms.inits.zip ms).map (fun x => (StoreCall.Exec x.2, s.exec rows ([] ++ x.1) x.2))
      = rowSteps s rows ms := by
  simp [rowSteps]

/-- The five ways through the closure `exec`, each with its result, the state it leaves
the store in and its trace. -/
theorem exec_cases (s : StoreBehaviour) (rows ms : List Measurement) :
    (∃ e, s.beginx rows = some e ∧
      PostgresWriter.exec s (Store.idle rows) ms
        = (some e, { rows := rows, tx := none, calls := [StoreCall.Beginx] })) ∨
    (∃ e, s.beginx rows = none ∧ s.prepareNamed rows = some e ∧
      PostgresWriter.exec s (Store.idle rows) ms
        = (some e, { rows := rows, tx := none,
                     calls := [StoreCall.Beginx, StoreCall.PrepareNamed,
                       StoreCall.Rollback] })) ∨
    (∃ e k, s.beginx rows = none ∧ s.prepareNamed rows = none ∧
      firstFailure (rowSteps s rows ms) = some e ∧
      callsUntilFailure (rowSteps s rows ms) = (ms.take k).map StoreCall.Exec ∧
      PostgresWriter.exec s (Store.idle rows) ms
        = (some e, { rows := rows, tx := none,
                     calls := [StoreCall.Beginx, StoreCall.PrepareNamed]
                       ++ (ms.take k).map StoreCall.Exec
                       ++ [StoreCall.Close, StoreCall.Rollback] })) ∨
    (∃ e, s.beginx rows = none ∧ s.prepareNamed rows = none ∧
      firstFailure (rowSteps s rows ms) = none ∧
      callsUntilFailure (rowSteps s rows ms) = ms.map StoreCall.Exec ∧
      s.commit rows ms = some e ∧
      PostgresWriter.exec s (Store.idle rows) ms
        = (some e, { rows := rows, tx := none,
                     calls := [StoreCall.Beginx, StoreCall.PrepareNamed]
                       ++ ms.map StoreCall.Exec
                       ++ [StoreCall.Commit, StoreCall.Close, StoreCall.Rollback] })) ∨
    (s.beginx rows = none ∧ s.prepareNamed rows = none ∧
      firstFailure (rowSteps s rows ms) = none ∧
      callsUntilFailure (rowSteps s rows ms) = ms.map StoreCall.Exec ∧
      s.commit rows ms = none ∧
      PostgresWriter.exec s (Store.idle rows) ms
        = (none, { rows := rows ++ ms, tx := none,
                   calls := [StoreCall.Beginx, StoreCall.PrepareNamed]
                     ++ ms.map StoreCall.Exec
                     ++ [StoreCall.Commit, StoreCall.Close, StoreCall.Rollback] })) := by
  cases hb : s.beginx rows with
  | some e =>
    exact Or.inl ⟨e, rfl, by
      simp [PostgresWriter.exec, Store.Beginx, Store.idle, Store.record, hb]⟩
  | none =>
    cases hp : s.prepareNamed rows with
    | some e =>
      exact Or.inr (Or.inl ⟨e, rfl, rfl, by
        simp [PostgresWriter.exec, Store.Beginx, Store.PrepareNamed, Store.Rollback,
          Store.idle, Store.record, hb, hp]⟩)
    | none =>
      obtain ⟨h1, h2, h3, h4⟩ := insertLoop_steps s ms
        { rows := rows, tx := some [], calls := [StoreCall.Beginx, StoreCall.PrepareNamed] }
        [] rfl
      rw [rowSteps_eq] at h1 h2
      have hex : PostgresWriter.exec s (Store.idle rows) ms
          = (match PostgresWriter.insertLoop s ms
                { rows := rows, tx := some [],
                  calls := [StoreCall.Beginx, StoreCall.PrepareNamed] } with
              | (some e, st) => (some e, st.Close.Rollback)
              | (none, st) =>
                match st.Commit s with
                | (err, st) => (err, st.Close.Rollback)) := by
        simp [PostgresWriter.exec, Store.Beginx, Store.PrepareNamed, Store.idle,
          Store.record, hb, hp]
      rcases hl : PostgresWriter.insertLoop s ms
          { rows := rows, tx := some [],
            calls := [StoreCall.Beginx, StoreCall.PrepareNamed] } with ⟨_ | e, r1, t1, c1⟩
      · rw [hl] at h1 h2 h3 h4 hex
        simp only at h1 h2 h3 h4
        have ht := h4 trivial
        simp only [List.nil_append] at ht
        have h3s := h3.symm
        subst h3s ht
        have hc1 := callsUntilFailure_of_none _ h1.symm
        rw [rowSteps_calls] at hc1
        rw [hc1] at h2
        subst h2
        cases hc : s.commit rows ms with
        | some e =>
          refine Or.inr (Or.inr (Or.inr (Or.inl ⟨e, rfl, rfl, h1.symm, hc1, rfl, ?_⟩)))
          rw [hex]
          simp [Store.Commit, Store.Close, Store.Rollback, Store.record, hc]
        | none =>
          refine Or.inr (Or.inr (Or.inr (Or.inr ⟨rfl, rfl, h1.symm, hc1, rfl, ?_⟩)))
          rw [hex]
          simp [Store.Commit, Store.Close, Store.Rollback, Store.record, hc]
      · rw [hl] at h1 h2 h3 hex
        simp only at h1 h2 h3
        have h3s := h3.symm
        subst h3s
        obtain ⟨k, hk⟩ := callsUntilFailure_take (rowSteps s rows ms)
        rw [rowSteps_calls, ← List.map_take] at hk
        rw [hk] at h2
        subst h2
        refine Or.inr (Or.inr (Or.inl ⟨e, k, rfl, rfl, h1.symm, hk, ?_⟩))
        rw [hex]
        simp [Store.Close, Store.Rollback, Store.record]

theorem count_map_Exec (c : StoreCall) (hc : ∀ m, c ≠ StoreCall.Exec m) (l : List Measurement) :
    (l.map StoreCall.Exec).count c = 0 := by
  rw [List.count_eq_zero]
  intro h
  obtain ⟨m, _, hm⟩ := List.mem_map.1 h
  exact hc m hm.symm

theorem filter_isRelease_map_Exec (l : List Measurement) :
    (l.map StoreCall.Exec).filter (fun c => !isRelease c) = l.map StoreCall.Exec := by
  induction l with
  | nil => rfl
  | cons m l ih => simp [isRelease, ih]

theorem execRecords_row_trace (l : List Measurement) :
    execRecords ([StoreCall.Beginx, StoreCall.PrepareNamed] ++ l.map StoreCall.Exec
      ++ [StoreCall.Close, StoreCall.Rollback]) = l := by
  rw [execRecords_append, execRecords_append, execRecords_map_Exec]
  simp [execRecords]

theorem execRecords_commit_trace (l : List Measurement) :
    execRecords ([StoreCall.Beginx, StoreCall.PrepareNamed] ++ l.map StoreCall.Exec
      ++ [StoreCall.Commit, StoreCall.Close, StoreCall.Rollback]) = l := by
  rw [execRecords_append, execRecords_append, execRecords_map_Exec]
  simp [execRecords]

theorem count_trace (c : StoreCall) (hc : ∀ m, c ≠ StoreCall.Exec m)
    (front back : List StoreCall) (l : List Measurement) :
    (front ++ l.map StoreCall.Exec ++ back).count c = front.count c + back.count c := by
  rw [List.count_append, List.count_append, count_map_Exec c hc, Nat.add_zero]

theorem Flush_nil
    (sortSlice : (Measurement → Measurement → Bool) → List Measurement → List Measurement)
    (s : StoreBehaviour) (rows : List Measurement) :
    PostgresWriter.Flush sortSlice s rows []
      = { err := some (Error.new "No data in slice to flush")
          rows := rows, tx := none, calls := [], observations := 0, retryC := [],
          log := [] } := by
  simp [PostgresWriter.Flush]

theorem Flush_of_exec_some
    (sortSlice : (Measurement → Measurement → Bool) → List Measurement → List Measurement)
    (s : StoreBehaviour) (rows B : List Measurement) (hB : B ≠ [])
    {e : StoreError} {st : Store}
    (hex : PostgresWriter.exec s (Store.idle rows) (sortSlice lessCreated B) = (some e, st)) :
    PostgresWriter.Flush sortSlice s rows B
      = { err := some (Error.fromStore e)
          rows := st.rows, tx := st.tx, calls := st.calls, observations := 1
          retryC := [sortSlice lessCreated B], log := [LogLine.failed e] } := by
  have hlen : ¬ B.length = 0 := by simpa using hB
  simp [PostgresWriter.Flush, hlen, hex]

theorem Flush_of_exec_none
    (sortSlice : (Measurement → Measurement → Bool) → List Measurement → List Measurement)
    (s : StoreBehaviour) (rows B : List Measurement) (hB : B ≠ [])
    {st : Store}
    (hex : PostgresWriter.exec s (Store.idle rows) (sortSlice lessCreated B) = (none, st)) :
    PostgresWriter.Flush sortSlice s rows B
      = { err := none
          rows := st.rows, tx := st.tx, calls := st.calls, observations := 1
          retryC := [], log := [LogLine.flushed (sortSlice lessCreated B).length] } := by
  have hlen : ¬ B.length = 0 := by simpa using hB
  simp [PostgresWriter.Flush, hlen, hex]

/-! ## The claims -/

/-- C1. Atomicity on failure: whatever the batch and whichever store call fails, when
`Flush` returns a non-nil error the committed rows of the store after the call are
exactly the committed rows before it. -/
theorem flush_error_commits_nothing
    (sortSlice : (Measurement → Measurement → Bool) → List Measurement → List Measurement)
    (s : StoreBehaviour) (rows B : List Measurement)
    (h : (PostgresWriter.Flush sortSlice s rows B).err ≠ none) :
    (PostgresWriter.Flush sortSlice s rows B).rows = rows := by
  by_cases hB : B = []
  · subst hB; simp [Flush_nil]
  · rcases exec_cases s rows (sortSlice lessCreated B) with
      ⟨e, _, hex⟩ | ⟨e, _, _, hex⟩ | ⟨e, k, _, _, _, _, hex⟩ | ⟨e, _, _, _, _, _, hex⟩ |
      ⟨_, _, _, _, _, hex⟩
    · rw [Flush_of_exec_some sortSlice s rows B hB hex]
    · rw [Flush_of_exec_some sortSlice s rows B hB hex]
    · rw [Flush_of_exec_some sortSlice s rows B hB hex]
    · rw [Flush_of_exec_some sortSlice s rows B hB hex]
    · rw [Flush_of_exec_none sortSlice s rows B hB hex] at h
      exact absurd rfl h

/-- Witness for C1: a batch with two readings of the same instant against the store that
enforces the primary key fails, and the one committed row is all the store holds. -/
theorem flush_error_commits_nothing_witness :
    (PostgresWriter.Flush insertionSortLess primaryKeyStore [reading 5 0]
        [reading 20 2, reading 10 1, reading 10 4]).err ≠ none ∧
    (PostgresWriter.Flush insertionSortLess primaryKeyStore [reading 5 0]
        [reading 20 2, reading 10 1, reading 10 4]).rows = [reading 5 0] :=
  ⟨by decide, flush_error_commits_nothing insertionSortLess primaryKeyStore [reading 5 0]
      [reading 20 2, reading 10 1, reading 10 4] (by decide)⟩

/-- C2. Round-trip fidelity on success: when `Flush` returns nil on a non-empty batch
`B`, the insert was executed once for each record of `B`, the transaction was committed,
and the store gained exactly `len(B)` new rows, which are the records of `B` (as a
multiset: none dropped, duplicated or altered). -/
theorem flush_success_round_trip
    (sortSlice : (Measurement → Measurement → Bool) → List Measurement → List Measurement)
    (hsort : SortSliceContract sortSlice)
    (s : StoreBehaviour) (rows B : List Measurement) (hB : B ≠ [])
    (h : (PostgresWriter.Flush sortSlice s rows B).err = none) :
    ∃ added : List Measurement,
      (PostgresWriter.Flush sortSlice s rows B).rows = rows ++ added ∧
      added.length = B.length ∧ added.Perm B ∧
      execRecords (PostgresWriter.Flush sortSlice s rows B).calls = added ∧
      (PostgresWriter.Flush sortSlice s rows B).calls.count StoreCall.Commit = 1 ∧
      s.commit rows added = none := by
  rcases exec_cases s rows (sortSlice lessCreated B) with
    ⟨e, _, hex⟩ | ⟨e, _, _, hex⟩ | ⟨e, k, _, _, _, _, hex⟩ | ⟨e, _, _, _, _, _, hex⟩ |
    ⟨_, _, _, _, hcm, hex⟩
  · rw [Flush_of_exec_some sortSlice s rows B hB hex] at h; simp at h
  · rw [Flush_of_exec_some sortSlice s rows B hB hex] at h; simp at h
  · rw [Flush_of_exec_some sortSlice s rows B hB hex] at h; simp at h
  · rw [Flush_of_exec_some sortSlice s rows B hB hex] at h; simp at h
  · rw [Flush_of_exec_none sortSlice s rows B hB hex]
    refine ⟨sortSlice lessCreated B, rfl, (hsort B).1.length_eq, (hsort B).1, ?_, ?_, hcm⟩
    · exact execRecords_commit_trace _
    · simp [List.count_append, count_map_Exec]

/-- Witness for C2: three readings handed over out of order to a healthy store. -/
theorem flush_success_round_trip_witness :
    SortSliceContract insertionSortLess ∧
    [reading 30 3, reading 10 1, reading 20 2] ≠ [] ∧
    (PostgresWriter.Flush insertionSortLess healthyStore [reading 5 0]
        [reading 30 3, reading 10 1, reading 20 2]).err = none ∧
    ∃ added : List Measurement,
      (PostgresWriter.Flush insertionSortLess healthyStore [reading 5 0]
        [reading 30 3, reading 10 1, reading 20 2]).rows = [reading 5 0] ++ added ∧
      added.length = [reading 30 3, reading 10 1, reading 20 2].length ∧
      added.Perm [reading 30 3, reading 10 1, reading 20 2] ∧
      execRecords (PostgresWriter.Flush insertionSortLess healthyStore [reading 5 0]
        [reading 30 3, reading 10 1, reading 20 2]).calls = added ∧
      (PostgresWriter.Flush insertionSortLess healthyStore [reading 5 0]
        [reading 30 3, reading 10 1, reading 20 2]).calls.count StoreCall.Commit = 1 ∧
      healthyStore.commit [reading 5 0] added = none :=
  ⟨insertionSortLess_contract, by decide, by decide,
    flush_success_round_trip insertionSortLess insertionSortLess_contract healthyStore
      [reading 5 0] [reading 30 3, reading 10 1, reading 20 2] (by decide) (by decide)⟩

/-- C3. On the empty batch `Flush` returns the non-nil validation error and makes no
store call at all (no begin, prepare, insert, commit, rollback or close); the committed
rows are untouched, and nothing is observed, logged or handed to the retry channel. -/
theorem flush_empty_batch_rejected
    (sortSlice : (Measurement → Measurement → Bool) → List Measurement → List Measurement)
    (s : StoreBehaviour) (rows : List Measurement) :
    (PostgresWriter.Flush sortSlice s rows []).err
        = some (Error.new "No data in slice to flush") ∧
    (PostgresWriter.Flush sortSlice s rows []).err ≠ none ∧
    (PostgresWriter.Flush sortSlice s rows []).calls = [] ∧
    (PostgresWriter.Flush sortSlice s rows []).rows = rows ∧
    (PostgresWriter.Flush sortSlice s rows []).tx = none ∧
    (PostgresWriter.Flush sortSlice s rows []).retryC = [] ∧
    (PostgresWriter.Flush sortSlice s rows []).log = [] := by
  simp [Flush_nil]

/-- C4, as stated, fails: `sort.Slice` sorts the caller's slice in place before the
transaction, so when the store is unreachable the value handed to the retry channel for
the batch `[reading 20 2, reading 10 1]` is `[reading 10 1, reading 20 2]`: the caller's
order is gone. -/
theorem flush_retry_order_counterexample :
    [reading 20 2, reading 10 1] ≠ [] ∧
    (PostgresWriter.Flush insertionSortLess unreachableStore []
        [reading 20 2, reading 10 1]).err ≠ none ∧
    (PostgresWriter.Flush insertionSortLess unreachableStore []
        [reading 20 2, reading 10 1]).retryC = [[reading 10 1, reading 20 2]] ∧
    (PostgresWriter.Flush insertionSortLess unreachableStore []
        [reading 20 2, reading 10 1]).retryC ≠ [[reading 20 2, reading 10 1]] := by
  decide

/-- C4, amended. After a failing `Flush(B)` on a non-empty batch `B`, the one value offered
to the retry channel is the batch as the in-place sort left it: the same records, field
for field and each as often as in `B` (a permutation of `B`), in ascending order of
`Created`. -/
theorem flush_retry_batch_sorted_perm
    (sortSlice : (Measurement → Measurement → Bool) → List Measurement → List Measurement)
    (hsort : SortSliceContract sortSlice)
    (s : StoreBehaviour) (rows B : List Measurement) (hB : B ≠ [])
    (h : (PostgresWriter.Flush sortSlice s rows B).err ≠ none) :
    ∃ sent : List Measurement,
      (PostgresWriter.Flush sortSlice s rows B).retryC = [sent] ∧
      sent = sortSlice lessCreated B ∧
      sent.Perm B ∧
      sent.Pairwise (fun a b => a.Created ≤ b.Created) := by
  refine ⟨sortSlice lessCreated B, ?_, rfl, (hsort B).1, contract_ascending hsort B⟩
  rcases exec_cases s rows (sortSlice lessCreated B) with
    ⟨e, _, hex⟩ | ⟨e, _, _, hex⟩ | ⟨e, k, _, _, _, _, hex⟩ | ⟨e, _, _, _, _, _, hex⟩ |
    ⟨_, _, _, _, _, hex⟩
  · rw [Flush_of_exec_some sortSlice s rows B hB hex]
  · rw [Flush_of_exec_some sortSlice s rows B hB hex]
  · rw [Flush_of_exec_some sortSlice s rows B hB hex]
  · rw [Flush_of_exec_some sortSlice s rows B hB hex]
  · rw [Flush_of_exec_none sortSlice s rows B hB hex] at h
    exact absurd rfl h

/-- Witness for the amended C4: the commit of an out-of-order batch fails. -/
theorem flush_retry_batch_sorted_perm_witness :
    SortSliceContract insertionSortLess ∧
    [reading 30 3, reading 10 1, reading 20 2] ≠ [] ∧
    (PostgresWriter.Flush insertionSortLess commitFailStore []
        [reading 30 3, reading 10 1, reading 20 2]).err ≠ none ∧
    ∃ sent : List Measurement,
      (PostgresWriter.Flush insertionSortLess commitFailStore []
        [reading 30 3, reading 10 1, reading 20 2]).retryC = [sent] ∧
      sent = insertionSortLess lessCreated [reading 30 3, reading 10 1, reading 20 2] ∧
      sent.Perm [reading 30 3, reading 10 1, reading 20 2] ∧
      sent.Pairwise (fun a b => a.Created ≤ b.Created) :=
  ⟨insertionSortLess_contract, by decide, by decide,
    flush_retry_batch_sorted_perm insertionSortLess insertionSortLess_contract
      commitFailStore [] [reading 30 3, reading 10 1, reading 20 2] (by decide) (by decide)⟩

/-- C5. A send to the retry channel is dispatched exactly once when `Flush` returns an
error of a store call (begin, prepare, a row insert or commit), which happens exactly when
it fails on a non-empty batch; no send is dispatched when `Flush` returns nil or rejects
the empty batch; and never more than one send is dispatched per call. -/
theorem flush_retry_dispatch
    (sortSlice : (Measurement → Measurement → Bool) → List Measurement → List Measurement)
    (s : StoreBehaviour) (rows B : List Measurement) :
    ((∃ e, (PostgresWriter.Flush sortSlice s rows B).err = some (Error.fromStore e)) ↔
        (PostgresWriter.Flush sortSlice s rows B).retryC.length = 1) ∧
    ((B ≠ [] ∧ (PostgresWriter.Flush sortSlice s rows B).err ≠ none) ↔
        (PostgresWriter.Flush sortSlice s rows B).retryC.length = 1) ∧
    (((PostgresWriter.Flush sortSlice s rows B).err = none ∨ B = []) ↔
        (PostgresWriter.Flush sortSlice s rows B).retryC = []) ∧
    (PostgresWriter.Flush sortSlice s rows B).retryC.length ≤ 1 := by
  by_cases hB : B = []
  · subst hB; simp [Flush_nil]
  · rcases exec_cases s rows (sortSlice lessCreated B) with
      ⟨e, _, hex⟩ | ⟨e, _, _, hex⟩ | ⟨e, k, _, _, _, _, hex⟩ | ⟨e, _, _, _, _, _, hex⟩ |
      ⟨_, _, _, _, _, hex⟩
    · rw [Flush_of_exec_some sortSlice s rows B hB hex]; simp [hB]
    · rw [Flush_of_exec_some sortSlice s rows B hB hex]; simp [hB]
    · rw [Flush_of_exec_some sortSlice s rows B hB hex]; simp [hB]
    · rw [Flush_of_exec_some sortSlice s rows B hB hex]; simp [hB]
    · rw [Flush_of_exec_none sortSlice s rows B hB hex]; simp

/-- C6, as stated, fails: against the store that rejects the insert statement the
transaction is begun, `PrepareNamed` fails and the closure returns at line 98; no row
fails (no insert is attempted, and none would fail), yet the sequence of executed
inserts is empty and so is not a permutation of the batch `[reading 10 1]`. -/
theorem flush_insert_perm_counterexample :
    [reading 10 1] ≠ [] ∧
    (PostgresWriter.Flush insertionSortLess noPrepareStore [] [reading 10 1]).calls
      = [StoreCall.Beginx, StoreCall.PrepareNamed, StoreCall.Rollback] ∧
    (∀ x ∈ rowSteps noPrepareStore [] (insertionSortLess lessCreated [reading 10 1]),
        x.2 = none) ∧
    execRecords (PostgresWriter.Flush insertionSortLess noPrepareStore []
        [reading 10 1]).calls = [] ∧
    ¬ (execRecords (PostgresWriter.Flush insertionSortLess noPrepareStore []
        [reading 10 1]).calls).Perm [reading 10 1] := by
  refine ⟨by decide, by decide, by decide, by decide, ?_⟩
  intro h
  have := h.length_eq
  revert this
  decide

/-- C6, amended. For every non-empty batch, in any input order, the sequence of records
for which `Flush` executes the insert is in ascending (non-decreasing) order of `Created`
(it is an initial segment of the sorted batch); and when begin and prepare succeed and
no row fails, that sequence is a permutation of the input batch. -/
theorem flush_inserts_ascending
    (sortSlice : (Measurement → Measurement → Bool) → List Measurement → List Measurement)
    (hsort : SortSliceContract sortSlice)
    (s : StoreBehaviour) (rows B : List Measurement) (hB : B ≠ []) :
    (∃ k, execRecords (PostgresWriter.Flush sortSlice s rows B).calls
        = (sortSlice lessCreated B).take k) ∧
    (execRecords (PostgresWriter.Flush sortSlice s rows B).calls).Pairwise
        (fun a b => a.Created ≤ b.Created) ∧
    (s.beginx rows = none → s.prepareNamed rows = none →
      (∀ x ∈ rowSteps s rows (sortSlice lessCreated B), x.2 = none) →
      (execRecords (PostgresWriter.Flush sortSlice s rows B).calls).Perm B) := by
  have hasc := contract_ascending hsort B
  have key : (∃ k, execRecords (PostgresWriter.Flush sortSlice s rows B).calls
        = (sortSlice lessCreated B).take k) ∧
      (s.beginx rows = none → s.prepareNamed rows = none →
        (∀ x ∈ rowSteps s rows (sortSlice lessCreated B), x.2 = none) →
        execRecords (PostgresWriter.Flush sortSlice s rows B).calls
          = sortSlice lessCreated B) := by
    rcases exec_cases s rows (sortSlice lessCreated B) with
      ⟨e, hb, hex⟩ | ⟨e, _, hp, hex⟩ | ⟨e, k, _, _, hf, _, hex⟩ | ⟨e, _, _, _, _, _, hex⟩ |
      ⟨_, _, _, _, _, hex⟩
    · rw [Flush_of_exec_some sortSlice s rows B hB hex]
      exact ⟨⟨0, by simp [execRecords]⟩, fun h => by simp [hb] at h⟩
    · rw [Flush_of_exec_some sortSlice s rows B hB hex]
      exact ⟨⟨0, by simp [execRecords]⟩, fun _ h => by simp [hp] at h⟩
    · rw [Flush_of_exec_some sortSlice s rows B hB hex]
      refine ⟨⟨k, execRecords_row_trace _⟩, ?_⟩
      intro _ _ hall
      rw [(firstFailure_eq_none_iff _).2 hall] at hf
      exact absurd hf (by simp)
    · rw [Flush_of_exec_some sortSlice s rows B hB hex]
      have he := execRecords_commit_trace (sortSlice lessCreated B)
      exact ⟨⟨(sortSlice lessCreated B).length, he.trans (List.take_length _).symm⟩,
        fun _ _ _ => he⟩
    · rw [Flush_of_exec_none sortSlice s rows B hB hex]
      have he := execRecords_commit_trace (sortSlice lessCreated B)
      exact ⟨⟨(sortSlice lessCreated B).length, he.trans (List.take_length _).symm⟩,
        fun _ _ _ => he⟩
  obtain ⟨⟨k, hk⟩, hfull⟩ := key
  refine ⟨⟨k, hk⟩, ?_, ?_⟩
  · rw [hk]
    exact hasc.sublist (List.take_sublist k _)
  · intro hb hp hall
    rw [hfull hb hp hall]
    exact (hsort B).1

/-- Witness for the amended C6: scenario 1, three readings out of order, all inserted. -/
theorem flush_inserts_ascending_witness :
    SortSliceContract insertionSortLess ∧
    [reading 30 3, reading 10 1, reading 20 2] ≠ [] ∧
    (execRecords (PostgresWriter.Flush insertionSortLess primaryKeyStore [reading 5 0]
        [reading 30 3, reading 10 1, reading 20 2]).calls).Pairwise
        (fun a b => a.Created ≤ b.Created) ∧
    (execRecords (PostgresWriter.Flush insertionSortLess primaryKeyStore [reading 5 0]
        [reading 30 3, reading 10 1, reading 20 2]).calls).Perm
        [reading 30 3, reading 10 1, reading 20 2] :=
  ⟨insertionSortLess_contract, by decide,
    (flush_inserts_ascending insertionSortLess insertionSortLess_contract primaryKeyStore
      [reading 5 0] [reading 30 3, reading 10 1, reading 20 2] (by decide)).2.1,
    (flush_inserts_ascending insertionSortLess insertionSortLess_contract primaryKeyStore
      [reading 5 0] [reading 30 3, reading 10 1, reading 20 2] (by decide)).2.2
      (by decide) (by decide) (by decide)⟩

/-- The closure `exec` against the planned steps: it returns the first failure, its
calls other than the deferred releases are the steps up to that failure, and `Commit` is
reached exactly when begin, prepare and every row succeed. -/
theorem exec_planned (s : StoreBehaviour) (rows ms : List Measurement) :
    (PostgresWriter.exec s (Store.idle rows) ms).1 = firstFailure (plannedSteps s rows ms) ∧
    (PostgresWriter.exec s (Store.idle rows) ms).2.calls.filter (fun c => !isRelease c)
      = callsUntilFailure (plannedSteps s rows ms) ∧
    (StoreCall.Commit ∈ (PostgresWriter.exec s (Store.idle rows) ms).2.calls ↔
      s.beginx rows = none ∧ s.prepareNamed rows = none ∧
        ∀ x ∈ rowSteps s rows ms, x.2 = none) := by
  rcases exec_cases s rows ms with
    ⟨e, hb, hex⟩ | ⟨e, hb, hp, hex⟩ | ⟨e, k, hb, hp, hf, hc, hex⟩ |
    ⟨e, hb, hp, hf, hc, hcm, hex⟩ | ⟨hb, hp, hf, hc, hcm, hex⟩
  · simp [hex, plannedSteps, hb, firstFailure, callsUntilFailure, isRelease]
  · simp [hex, plannedSteps, hb, hp, firstFailure, callsUntilFailure, isRelease]
  · have hnot : ¬ ∀ x ∈ rowSteps s rows ms, x.2 = none := by
      intro hall
      rw [(firstFailure_eq_none_iff _).2 hall] at hf
      exact absurd hf (by simp)
    refine ⟨?_, ?_, ?_⟩
    · simp [hex, plannedSteps, hb, hp, firstFailure, firstFailure_append_some _ _ e hf]
    · rw [hex]
      simp only [plannedSteps, hb, hp, callsUntilFailure,
        callsUntilFailure_append_some _ _ e hf, hc, List.filter_append,
        filter_isRelease_map_Exec]
      simp [isRelease]
    · rw [hex]
      simp only [hb, hp, true_and]
      constructor
      · intro hmem
        have h0 := count_trace StoreCall.Commit (fun m => StoreCall.noConfusion)
          [StoreCall.Beginx, StoreCall.PrepareNamed] [StoreCall.Close, StoreCall.Rollback]
          (ms.take k)
        exact absurd hmem (List.count_eq_zero.1 (h0.trans (by decide)))
      · intro hall
        exact absurd hall hnot
  · have hall := (firstFailure_eq_none_iff _).1 hf
    refine ⟨?_, ?_, ?_⟩
    · simp [hex, plannedSteps, hb, hp, firstFailure, firstFailure_append_none _ _ hf, hcm]
    · rw [hex]
      simp only [plannedSteps, hb, hp, callsUntilFailure,
        callsUntilFailure_append_none _ _ hf, hc, hcm, List.filter_append,
        filter_isRelease_map_Exec]
      simp [isRelease]
    · rw [hex]
      simp only [hb, hp, true_and]
      exact ⟨fun _ => hall, fun _ => by simp⟩
  · have hall := (firstFailure_eq_none_iff _).1 hf
    refine ⟨?_, ?_, ?_⟩
    · simp [hex, plannedSteps, hb, hp, firstFailure, firstFailure_append_none _ _ hf, hcm]
    · rw [hex]
      simp only [plannedSteps, hb, hp, callsUntilFailure,
        callsUntilFailure_append_none _ _ hf, hc, hcm, List.filter_append,
        filter_isRelease_map_Exec]
      simp [isRelease]
    · rw [hex]
      simp only [hb, hp, true_and]
      exact ⟨fun _ => hall, fun _ => by simp⟩

/-- The outcome of `Flush` on a non-empty batch in terms of the closure `exec`. -/
theorem Flush_of_ne_nil
    (sortSlice : (Measurement → Measurement → Bool) → List Measurement → List Measurement)
    (s : StoreBehaviour) (rows B : List Measurement) (hB : B ≠ []) :
    (PostgresWriter.Flush sortSlice s rows B).err
      = (PostgresWriter.exec s (Store.idle rows) (sortSlice lessCreated B)).1.map Error.fromStore ∧
    (PostgresWriter.Flush sortSlice s rows B).rows
      = (PostgresWriter.exec s (Store.idle rows) (sortSlice lessCreated B)).2.rows ∧
    (PostgresWriter.Flush sortSlice s rows B).calls
      = (PostgresWriter.exec s (Store.idle rows) (sortSlice lessCreated B)).2.calls ∧
    (PostgresWriter.Flush sortSlice s rows B).observations = 1 := by
  rcases hex : PostgresWriter.exec s (Store.idle rows) (sortSlice lessCreated B) with
    ⟨_ | e, st⟩
  · rw [Flush_of_exec_none sortSlice s rows B hB hex]; simp
  · rw [Flush_of_exec_some sortSlice s rows B hB hex]; simp

/-- C7. No error is swallowed and the first failure stops the work: on a non-empty batch
`Flush` returns exactly the error of the first failing step among begin, prepare, the
per-row inserts in sorted order and commit; the store calls it makes, the deferred
releases apart, are the steps up to and including that first failure and none after it, so
no later record is inserted and `Commit` is called only when every earlier step
succeeded; and `Flush` returns nil only if (in fact, exactly if) every step succeeded. -/
theorem flush_returns_first_failure
    (sortSlice : (Measurement → Measurement → Bool) → List Measurement → List Measurement)
    (s : StoreBehaviour) (rows B : List Measurement) (hB : B ≠ []) :
    (PostgresWriter.Flush sortSlice s rows B).err
      = (firstFailure (plannedSteps s rows (sortSlice lessCreated B))).map Error.fromStore ∧
    (PostgresWriter.Flush sortSlice s rows B).calls.filter (fun c => !isRelease c)
      = callsUntilFailure (plannedSteps s rows (sortSlice lessCreated B)) ∧
    ((PostgresWriter.Flush sortSlice s rows B).err = none ↔
      ∀ x ∈ plannedSteps s rows (sortSlice lessCreated B), x.2 = none) ∧
    (StoreCall.Commit ∈ (PostgresWriter.Flush sortSlice s rows B).calls ↔
      s.beginx rows = none ∧ s.prepareNamed rows = none ∧
        ∀ x ∈ rowSteps s rows (sortSlice lessCreated B), x.2 = none) ∧
    (PostgresWriter.Flush sortSlice s rows B).calls.count StoreCall.Commit ≤ 1 := by
  obtain ⟨herr, _, hcalls, _⟩ := Flush_of_ne_nil sortSlice s rows B hB
  obtain ⟨h1, h2, h3⟩ := exec_planned s rows (sortSlice lessCreated B)
  refine ⟨?_, ?_, ?_, ?_, ?_⟩
  · rw [herr, h1]
  · rw [hcalls, h2]
  · rw [herr, h1, Option.map_eq_none', firstFailure_eq_none_iff]
  · rw [hcalls, h3]
  · rw [hcalls]
    rcases exec_cases s rows (sortSlice lessCreated B) with
      ⟨e, _, hex⟩ | ⟨e, _, _, hex⟩ | ⟨e, k, _, _, _, _, hex⟩ | ⟨e, _, _, _, _, _, hex⟩ |
      ⟨_, _, _, _, _, hex⟩
    · rw [hex]
      show List.count StoreCall.Commit [StoreCall.Beginx] ≤ 1
      decide
    · rw [hex]
      show List.count StoreCall.Commit
        [StoreCall.Beginx, StoreCall.PrepareNamed, StoreCall.Rollback] ≤ 1
      decide
    · rw [hex]
      exact (count_trace StoreCall.Commit (fun m => StoreCall.noConfusion) _ _ _).le.trans
        (by decide)
    · rw [hex]
      exact (count_trace StoreCall.Commit (fun m => StoreCall.noConfusion) _ _ _).le.trans
        (by decide)
    · rw [hex]
      exact (count_trace StoreCall.Commit (fun m => StoreCall.noConfusion) _ _ _).le.trans
        (by decide)

/-- Witness for C7: scenario 4, the second of two readings of the same instant violates
the primary key; its error is returned, the third record is never inserted and `Commit`
is not called. -/
theorem flush_returns_first_failure_witness :
    [reading 20 2, reading 10 1, reading 10 4] ≠ [] ∧
    (PostgresWriter.Flush insertionSortLess primaryKeyStore []
        [reading 20 2, reading 10 1, reading 10 4]).err
      = some (Error.fromStore "duplicate key") ∧
    (PostgresWriter.Flush insertionSortLess primaryKeyStore []
        [reading 20 2, reading 10 1, reading 10 4]).calls.filter (fun c => !isRelease c)
      = [StoreCall.Beginx, StoreCall.PrepareNamed, StoreCall.Exec (reading 10 1),
          StoreCall.Exec (reading 10 4)] :=
  ⟨by decide,
    (flush_returns_first_failure insertionSortLess primaryKeyStore []
      [reading 20 2, reading 10 1, reading 10 4] (by decide)).1.trans (by decide),
    (flush_returns_first_failure insertionSortLess primaryKeyStore []
      [reading 20 2, reading 10 1, reading 10 4] (by decide)).2.1.trans (by decide)⟩

/-- C8, as stated, fails: the timer is created after the empty-batch return of lines
75-77, so an invocation on the empty batch returns an error and records no duration. -/
theorem flush_observation_counterexample :
    (PostgresWriter.Flush insertionSortLess healthyStore [] []).err ≠ none ∧
    (PostgresWriter.Flush insertionSortLess healthyStore [] []).observations = 0 ∧
    (PostgresWriter.Flush insertionSortLess healthyStore [] []).observations ≠ 1 := by
  decide

/-- C8, amended. Every invocation of `Flush` on a non-empty batch records exactly one
duration observation, whether it returns nil or any error; an invocation rejected for an
empty batch records none. -/
theorem flush_observations
    (sortSlice : (Measurement → Measurement → Bool) → List Measurement → List Measurement)
    (s : StoreBehaviour) (rows B : List Measurement) :
    (PostgresWriter.Flush sortSlice s rows B).observations = if B = [] then 0 else 1 := by
  by_cases hB : B = []
  · subst hB; simp [Flush_nil]
  · rw [(Flush_of_ne_nil sortSlice s rows B hB).2.2.2]; simp [hB]

/-- C9. `PostgresConfig.String` renders the five fields verbatim, in the order user,
password, host, port, dbname, each after its key, and always ends with
` sslmode=disable`, whatever the field values. -/
theorem config_string_rendering (pc : PostgresConfig) :
    pc.String = "user=" ++ pc.User ++ " password=" ++ pc.Password ++ " host=" ++ pc.Host
      ++ " port=" ++ pc.Port ++ " dbname=" ++ pc.DbName ++ " sslmode=disable" ∧
    ∃ front : String, pc.String = front ++ " sslmode=disable" := by
  have h : pc.String = "user=" ++ pc.User ++ " password=" ++ pc.Password ++ " host="
      ++ pc.Host ++ " port=" ++ pc.Port ++ " dbname=" ++ pc.DbName ++ " sslmode=disable" := by
    apply String.ext
    simp only [PostgresConfig.String, Sprintf, String.data_append]
    simp [sprintfLoop, sprintfExtra]
  exact ⟨h, _, h⟩

/-- The counts of acquisitions and releases in the trace of the closure `exec`, and the
position of the releases at its end. -/
theorem exec_release_counts (s : StoreBehaviour) (rows ms : List Measurement) :
    (PostgresWriter.exec s (Store.idle rows) ms).2.calls.count StoreCall.Beginx = 1 ∧
    (PostgresWriter.exec s (Store.idle rows) ms).2.calls.count StoreCall.PrepareNamed
      = (if s.beginx rows = none then 1 else 0) ∧
    (PostgresWriter.exec s (Store.idle rows) ms).2.calls.count StoreCall.Rollback
      = (if s.beginx rows = none then 1 else 0) ∧
    (PostgresWriter.exec s (Store.idle rows) ms).2.calls.count StoreCall.Close
      = (if s.beginx rows = none ∧ s.prepareNamed rows = none then 1 else 0) ∧
    (s.beginx rows = none →
      ∃ front, (PostgresWriter.exec s (Store.idle rows) ms).2.calls = front ++ [StoreCall.Rollback]) ∧
    (s.beginx rows = none → s.prepareNamed rows = none →
      ∃ front, (PostgresWriter.exec s (Store.idle rows) ms).2.calls
        = front ++ [StoreCall.Close, StoreCall.Rollback]) := by
  rcases exec_cases s rows ms with
    ⟨e, hb, hex⟩ | ⟨e, hb, hp, hex⟩ | ⟨e, k, hb, hp, _, _, hex⟩ |
    ⟨e, hb, hp, _, _, _, hex⟩ | ⟨hb, hp, _, _, _, hex⟩
  · rw [hex]
    simp [hb]
  · rw [hex]
    simp only [hb, hp]
    refine ⟨by decide, by decide, by decide, by simp, fun _ => ⟨[_, _], rfl⟩, ?_⟩
    intro _ h
    exact absurd h (by simp)
  · rw [hex]
    simp only [hb, hp, and_self, if_true, true_implies]
    refine ⟨?_, ?_, ?_, ?_,
      ⟨_, (List.append_assoc _ [StoreCall.Close] [StoreCall.Rollback]).symm⟩, ⟨_, rfl⟩⟩ <;>
    exact (count_trace _ (fun m => StoreCall.noConfusion) _ _ _).trans (by decide)
  · rw [hex]
    simp only [hb, hp, and_self, if_true, true_implies]
    refine ⟨?_, ?_, ?_, ?_,
      ⟨_, (List.append_assoc _ [StoreCall.Commit, StoreCall.Close]
        [StoreCall.Rollback]).symm⟩,
      ⟨_, (List.append_assoc _ [StoreCall.Commit]
        [StoreCall.Close, StoreCall.Rollback]).symm⟩⟩ <;>
    exact (count_trace _ (fun m => StoreCall.noConfusion) _ _ _).trans (by decide)
  · rw [hex]
    simp only [hb, hp, and_self, if_true, true_implies]
    refine ⟨?_, ?_, ?_, ?_,
      ⟨_, (List.append_assoc _ [StoreCall.Commit, StoreCall.Close]
        [StoreCall.Rollback]).symm⟩,
      ⟨_, (List.append_assoc _ [StoreCall.Commit]
        [StoreCall.Close, StoreCall.Rollback]).symm⟩⟩ <;>
    exact (count_trace _ (fun m => StoreCall.noConfusion) _ _ _).trans (by decide)

/-- No transaction is left open when `Flush` returns. -/
theorem Flush_tx_none
    (sortSlice : (Measurement → Measurement → Bool) → List Measurement → List Measurement)
    (s : StoreBehaviour) (rows B : List Measurement) :
    (PostgresWriter.Flush sortSlice s rows B).tx = none := by
  by_cases hB : B = []
  · subst hB; simp [Flush_nil]
  · rcases exec_cases s rows (sortSlice lessCreated B) with
      ⟨e, _, hex⟩ | ⟨e, _, _, hex⟩ | ⟨e, k, _, _, _, _, hex⟩ | ⟨e, _, _, _, _, _, hex⟩ |
      ⟨_, _, _, _, _, hex⟩
    · rw [Flush_of_exec_some sortSlice s rows B hB hex]
    · rw [Flush_of_exec_some sortSlice s rows B hB hex]
    · rw [Flush_of_exec_some sortSlice s rows B hB hex]
    · rw [Flush_of_exec_some sortSlice s rows B hB hex]
    · rw [Flush_of_exec_none sortSlice s rows B hB hex]

/-- C10, as stated, fails: when `Beginx` fails the closure returns at line 92 and the
statement is never prepared, so it is not prepared exactly once in every call. -/
theorem flush_prepare_counterexample :
    [reading 10 1] ≠ [] ∧
    (PostgresWriter.Flush insertionSortLess unreachableStore [] [reading 10 1]).calls
      = [StoreCall.Beginx] ∧
    (PostgresWriter.Flush insertionSortLess unreachableStore []
      [reading 10 1]).calls.count StoreCall.PrepareNamed = 0 ∧
    (PostgresWriter.Flush insertionSortLess unreachableStore []
      [reading 10 1]).calls.count StoreCall.PrepareNamed ≠ 1 := by
  decide

/-- C10, amended. Scoped release on every exit path: for every non-empty batch and every
store behaviour, `Beginx` is called once; if begin succeeded, `Rollback` is called exactly
once and is the last store call (so it follows the commit on the success path); if
prepare succeeded, `Close` is called exactly once, right before that `Rollback`; a
transaction that was never begun is never rolled back and a statement that was never
prepared is never closed; the statement is prepared exactly once in a call whose begin
succeeded and never otherwise, not once per row; and no transaction is left open when
`Flush` returns. -/
theorem flush_scoped_release
    (sortSlice : (Measurement → Measurement → Bool) → List Measurement → List Measurement)
    (s : StoreBehaviour) (rows B : List Measurement) (hB : B ≠ []) :
    (PostgresWriter.Flush sortSlice s rows B).calls.count StoreCall.Beginx = 1 ∧
    (PostgresWriter.Flush sortSlice s rows B).calls.count StoreCall.PrepareNamed
      = (if s.beginx rows = none then 1 else 0) ∧
    (PostgresWriter.Flush sortSlice s rows B).calls.count StoreCall.Rollback
      = (if s.beginx rows = none then 1 else 0) ∧
    (PostgresWriter.Flush sortSlice s rows B).calls.count StoreCall.Close
      = (if s.beginx rows = none ∧ s.prepareNamed rows = none then 1 else 0) ∧
    (s.beginx rows = none →
      ∃ front, (PostgresWriter.Flush sortSlice s rows B).calls
        = front ++ [StoreCall.Rollback]) ∧
    (s.beginx rows = none → s.prepareNamed rows = none →
      ∃ front, (PostgresWriter.Flush sortSlice s rows B).calls
        = front ++ [StoreCall.Close, StoreCall.Rollback]) ∧
    (PostgresWriter.Flush sortSlice s rows B).tx = none := by
  rw [(Flush_of_ne_nil sortSlice s rows B hB).2.2.1]
  obtain ⟨h1, h2, h3, h4, h5, h6⟩ := exec_release_counts s rows (sortSlice lessCreated B)
  exact ⟨h1, h2, h3, h4, h5, h6, Flush_tx_none sortSlice s rows B⟩

/-- Witness for the amended C10: a row failure (scenario 4) still releases the statement
and the transaction once each, in that order. -/
theorem flush_scoped_release_witness :
    [reading 20 2, reading 10 1, reading 10 4] ≠ [] ∧
    (PostgresWriter.Flush insertionSortLess primaryKeyStore []
        [reading 20 2, reading 10 1, reading 10 4]).calls.count StoreCall.Rollback = 1 ∧
    (PostgresWriter.Flush insertionSortLess primaryKeyStore []
        [reading 20 2, reading 10 1, reading 10 4]).calls.count StoreCall.Close = 1 ∧
    ∃ front, (PostgresWriter.Flush insertionSortLess primaryKeyStore []
        [reading 20 2, reading 10 1, reading 10 4]).calls
      = front ++ [StoreCall.Close, StoreCall.Rollback] :=
  ⟨by decide,
    (flush_scoped_release insertionSortLess primaryKeyStore []
      [reading 20 2, reading 10 1, reading 10 4] (by decide)).2.2.1.trans (by decide),
    (flush_scoped_release insertionSortLess primaryKeyStore []
      [reading 20 2, reading 10 1, reading 10 4] (by decide)).2.2.2.1.trans (by decide),
    (flush_scoped_release insertionSortLess primaryKeyStore []
      [reading 20 2, reading 10 1, reading 10 4] (by decide)).2.2.2.2.2.1 (by decide) (by decide)⟩

end Smartmeter
